import Mathlib

/-!
Verification of the "Offers Made" classifier and 24-hour deduplicator of the
fub-analytics repository.

The development shallowly embeds `countOfferEvents` from
`dashboard/utils/dataProcessing.js` together with the shared stage constants
from `dashboard/utils/constants.js`.

Embedding conventions:
* `changed_at` is carried as `Option Int`, the result of `new Date(s)` on the
  record's timestamp string: `some t` is the instant in milliseconds since the
  epoch, `none` is an Invalid Date (unparseable string).  Every JavaScript
  comparison involving an Invalid Date (`NaN`) is false, which the embedded
  comparison helpers reproduce.  The float division `(ms diff) / 3600000 >= 24`
  is exact for integer millisecond differences, so it is embedded as
  `86400000 <= diff` on `Int`.
* Nullable / possibly-missing string fields are `Option String`;
  `x === "literal"` on such a field is `x == some "literal"` (null and
  undefined compare unequal to any string), and
  `PRE_OFFER_STAGES.includes(x)` is false when `x` is null.
* `Array.prototype.sort` is stable (ES2019); it is embedded as a stable
  insertion sort over the source's comparator.  For records with parseable
  timestamps the comparator is a total preorder, so every stable sort — in
  particular the JavaScript one — produces this exact list.  Where the
  comparator returns `NaN` (unparseable `changed_at`) the embedding resolves
  each comparison the way the major engines do, treating the result as `0`.
* `localeCompare` on the distinct opaque `person_id` strings is modelled by
  lexicographic string order; the anchor object `lastOfferTimeByLead` is
  modelled as a pure map from `person_id` (prototype-inherited keys of a
  JavaScript object literal are abstracted away).
-/

/-- Stage constant, dataProcessing.js line 96. -/
def OFFERS_MADE_STAGE : String := "ACQ - Offers Made"

/-- Stage constant, dataProcessing.js line 97. -/
def OFFER_NOT_ACCEPTED_STAGE : String := "ACQ - Offer Not Accepted"

/-- Stage constant, dataProcessing.js line 98. -/
def CONTRACT_SENT_STAGE : String := "ACQ - Contract Sent"

/-- The closed pre-offer stage list, constants.js lines 27-39. -/
def PRE_OFFER_STAGES : List String :=
  [ "ACQ - Qualified"
  , "ACQ - Needs Offer"
  , "Qualified Phase 2 - Day 3 to 2 Weeks"
  , "Qualified Phase 3 - 2 Weeks to 4 Weeks"
  , "ACQ - Listed on Market"
  , "ACQ - Went Cold - Drip Campaign"
  , "ACQ - Price Motivated"
  , "ACQ - Not Ready to Sell"
  , "ACQ - New Lead"
  , "ACQ - Contacted"
  , "ACQ - Attempted Contact" ]

/-- One raw stage-change record as consumed by `countOfferEvents`.
Only the fields the function reads or copies are modelled; other passthrough
attributes (campaign id, lead source) are not touched by it. -/
structure StageChange where
  person_id : String
  first_name : Option String
  last_name : Option String
  stage_from : Option String
  stage_to : Option String
  changed_at : Option Int
deriving DecidableEq

/-- An offer event as pushed at dataProcessing.js lines 138-146: the copied
record fields plus the `offer_type` tag. -/
structure OfferEvent where
  person_id : String
  first_name : Option String
  last_name : Option String
  stage_from : Option String
  stage_to : Option String
  changed_at : Option Int
  offer_type : String
deriving DecidableEq

/-- The result object of `countOfferEvents`, dataProcessing.js lines 195-198. -/
structure OfferCountResult where
  count : Nat
  offerEvents : List OfferEvent
deriving DecidableEq

/-- JavaScript `array.includes(x)` for a string array and a nullable string:
null or undefined is never a member. -/
def includesStr (l : List String) : Option String → Bool
  | some s => l.contains s
  | none => false

/-- JavaScript `dateA >= bound` on a parsed `changed_at`: false when the date
is invalid (`NaN` comparison). -/
def dateGe : Option Int → Int → Bool
  | some t, b => b ≤ t
  | none, _ => false

/-- JavaScript `dateA <= bound` on a parsed `changed_at`: false when the date
is invalid. -/
def dateLe : Option Int → Int → Bool
  | some t, b => t ≤ b
  | none, _ => false

/-- The date-range predicate of the filter at dataProcessing.js lines 103-106:
`changeDate >= startDate && changeDate <= endDate`. -/
def windowPred (startDate endDate : Int) (change : StageChange) : Bool :=
  dateGe change.changed_at startDate && dateLe change.changed_at endDate

/-- Lines 100-107: the input is filtered to the window only when BOTH bounds
are supplied (`if (startDate && endDate)`); otherwise it is used unchanged. -/
def applyDateFilter (stageChanges : List StageChange) :
    Option Int → Option Int → List StageChange
  | some s, some e => stageChanges.filter (windowPred s e)
  | _, _ => stageChanges

/-- The classifier body of the `forEach` at dataProcessing.js lines 112-148:
rule 1 (direct), else rule 2 (implicit via Offer Not Accepted), else rule 3
(implicit via Contract Sent), else not an offer event. -/
def classifyOffer (change : StageChange) : Option OfferEvent :=
  let stageTo := change.stage_to
  let stageFrom := change.stage_from
  if stageTo == some OFFERS_MADE_STAGE then
    some { person_id := change.person_id, first_name := change.first_name
         , last_name := change.last_name, stage_from := stageFrom
         , stage_to := stageTo, changed_at := change.changed_at
         , offer_type := "direct" }
  else if stageTo == some OFFER_NOT_ACCEPTED_STAGE
      && includesStr PRE_OFFER_STAGES stageFrom then
    some { person_id := change.person_id, first_name := change.first_name
         , last_name := change.last_name, stage_from := stageFrom
         , stage_to := stageTo, changed_at := change.changed_at
         , offer_type := "implicit_not_accepted" }
  else if stageTo == some CONTRACT_SENT_STAGE
      && includesStr PRE_OFFER_STAGES stageFrom then
    some { person_id := change.person_id, first_name := change.first_name
         , last_name := change.last_name, stage_from := stageFrom
         , stage_to := stageTo, changed_at := change.changed_at
         , offer_type := "implicit_contract_sent" }
  else
    none

/-- Sign of `a.person_id.localeCompare(b.person_id)` for distinct ids,
modelled by lexicographic order on the opaque id strings. -/
def personCompareInt (a b : String) : Int :=
  if a < b then -1 else if b < a then 1 else 0

/-- The difference `new Date(a.changed_at) - new Date(b.changed_at)` used by
the sort comparator at line 155.  When either date is invalid the JavaScript
difference is `NaN`; the engines' sort treats such a comparator result like
`0`, which is the value used here. -/
def changedAtDiff : Option Int → Option Int → Int
  | some x, some y => x - y
  | _, _ => 0

/-- The sort comparator at dataProcessing.js lines 151-156: by `person_id`
first, then by parsed `changed_at`. -/
def cmpOfferEvents (a b : OfferEvent) : Int :=
  if a.person_id ≠ b.person_id then personCompareInt a.person_id b.person_id
  else changedAtDiff a.changed_at b.changed_at

/-- Stable insertion of one element into the sorted prefix: the new element
goes in front of the first element it does not strictly follow. -/
def insertSorted (a : OfferEvent) : List OfferEvent → List OfferEvent
  | [] => [a]
  | b :: bs => if cmpOfferEvents a b ≤ 0 then a :: b :: bs else b :: insertSorted a bs

/-- The stable sort `offerEvents.sort(...)` at lines 151-156 over the embedded
comparator (see the module comment on stability). -/
def sortOfferEvents : List OfferEvent → List OfferEvent
  | [] => []
  | a :: rest => insertSorted a (sortOfferEvents rest)

/-- The 24-hour test at lines 173-175: `hoursDiff >= 24` where `hoursDiff` is
the millisecond difference divided by 3600000.  False whenever either stored
time is an Invalid Date (`NaN >= 24` is false). -/
def keepAfter24h : Option Int → Option Int → Bool
  | some t, some last => 86400000 ≤ t - last
  | _, _ => false

/-- The `lastOfferTimeByLead` object: per lead, the (possibly invalid) parsed
time of the last kept event.  `none` means no entry; Date objects are always
truthy, so `!lastOfferTimeByLead[personId]` is exactly "no entry". -/
abbrev LastOfferMap := String → Option (Option Int)

/-- One iteration of the dedup `forEach` at dataProcessing.js lines 162-182. -/
def dedupStep (acc : List OfferEvent × LastOfferMap) (event : OfferEvent) :
    List OfferEvent × LastOfferMap :=
  match acc.2 event.person_id with
  | none =>
      ( acc.1 ++ [event]
      , fun q => if q = event.person_id then some event.changed_at else acc.2 q )
  | some lastOfferTime =>
      if keepAfter24h event.changed_at lastOfferTime then
        ( acc.1 ++ [event]
        , fun q => if q = event.person_id then some event.changed_at else acc.2 q )
      else acc

/-- The full dedup pass over the sorted offer events, lines 158-182. -/
def dedupOfferEvents (offerEvents : List OfferEvent) : List OfferEvent :=
  (offerEvents.foldl dedupStep ([], fun _ => none)).1

/-- The embedding of `countOfferEvents(stageChanges, startDate, endDate)`,
dataProcessing.js lines 94-199: filter to the window (only when both bounds
are given), classify, sort, dedup, return count and surviving events. -/
def countOfferEvents (stageChanges : List StageChange)
    (startDate endDate : Option Int) : OfferCountResult :=
  let filteredChanges := applyDateFilter stageChanges startDate endDate
  let offerEvents := filteredChanges.filterMap classifyOffer
  let sortedEvents := sortOfferEvents offerEvents
  let dedupedOfferEvents := dedupOfferEvents sortedEvents
  { count := dedupedOfferEvents.length, offerEvents := dedupedOfferEvents }

/-! ### Test fixtures -/

/-- Fixture builder: a stage-change record with no display-name passthrough. -/
def mkStageChange (p : String) (sf st : Option String) (t : Option Int) : StageChange :=
  { person_id := p, first_name := none, last_name := none
  , stage_from := sf, stage_to := st, changed_at := t }

/-- Common pre-offer origin stage used by the fixtures. -/
def needsOffer : Option String := some "ACQ - Needs Offer"

/-! ### Small computation lemmas -/

/-- Classification of a record whose destination is the Offers-Made stage. -/
theorem classifyOffer_direct (c : StageChange) (h : c.stage_to = some OFFERS_MADE_STAGE) :
    classifyOffer c = some
      { person_id := c.person_id, first_name := c.first_name, last_name := c.last_name
      , stage_from := c.stage_from, stage_to := c.stage_to, changed_at := c.changed_at
      , offer_type := "direct" } := by
  simp [classifyOffer, h]

/-- Sorting a two-element list whose comparator does not demand a swap. -/
theorem sortOfferEvents_pair (a b : OfferEvent) (h : cmpOfferEvents a b ≤ 0) :
    sortOfferEvents [a, b] = [a, b] := by
  simp [sortOfferEvents, insertSorted, h]

/-- Deduplicating two same-lead events: the first is always kept, the second
survives exactly when the 24-hour test passes. -/
theorem dedupOfferEvents_pair (a b : OfferEvent) (hp : b.person_id = a.person_id) :
    dedupOfferEvents [a, b] =
      if keepAfter24h b.changed_at a.changed_at then [a, b] else [a] := by
  have ha : dedupStep ([], fun _ => none) a
      = ([a], fun q => if q = a.person_id then some a.changed_at else none) := by
    simp [dedupStep]
  show (List.foldl dedupStep ([], fun _ => none) [a, b]).1 = _
  rw [List.foldl_cons, List.foldl_cons, List.foldl_nil, ha]
  simp only [hp, dedupStep, if_pos rfl, if_true]
  split <;> simp

/-! ### Claims C4, C5, C9, C10 -/

/-- C4: with both bounds supplied, `countOfferEvents` first restricts the
input to records whose parsed `changed_at` lies in the closed interval
`[startDate, endDate]` and only then classifies and deduplicates, so the
windowed call coincides with the unbounded call on the pre-filtered records;
no deduplication state crosses the window boundary. -/
theorem countOfferEvents_window_self_contained :
    ∀ (xs : List StageChange) (s e : Int),
      countOfferEvents xs (some s) (some e) =
        countOfferEvents (xs.filter (windowPred s e)) none none
      ∧ (∀ c : StageChange, windowPred s e c = true ↔
          ∃ t, c.changed_at = some t ∧ s ≤ t ∧ t ≤ e) := by
  intro xs s e
  refine ⟨rfl, fun c => ?_⟩
  cases h : c.changed_at <;> simp [windowPred, dateGe, dateLe, h, and_assoc]

/-- C9: on empty input the result is count 0 with an empty event list, with or
without a date window. -/
theorem countOfferEvents_empty :
    ∀ (s e : Option Int), countOfferEvents [] s e = { count := 0, offerEvents := [] } := by
  intro s e
  cases s <;> cases e <;> rfl

/-- C10: when exactly one of the two bounds is supplied, no date filtering
happens at all and the result equals the unbounded call. -/
theorem countOfferEvents_single_bound_ignored :
    ∀ (xs : List StageChange) (b : Int),
      countOfferEvents xs (some b) none = countOfferEvents xs none none
      ∧ countOfferEvents xs none (some b) = countOfferEvents xs none none :=
  fun _ _ => ⟨rfl, rfl⟩

/-- General two-event computation: for one lead with two direct offers at
`t1 <= t2`, the deduplicated count is 2 exactly when the gap reaches 24 hours
(86400000 ms). -/
theorem countOfferEvents_two_direct (p : String) (sf : Option String) (t1 t2 : Int)
    (hle : t1 ≤ t2) :
    (countOfferEvents
      [ mkStageChange p sf (some OFFERS_MADE_STAGE) (some t1)
      , mkStageChange p sf (some OFFERS_MADE_STAGE) (some t2) ] none none).count
    = if 86400000 ≤ t2 - t1 then 2 else 1 := by
  have hclass : ∀ u : Int,
      classifyOffer (mkStageChange p sf (some OFFERS_MADE_STAGE) (some u)) =
        some { person_id := p, first_name := none, last_name := none, stage_from := sf
             , stage_to := some OFFERS_MADE_STAGE, changed_at := some u
             , offer_type := "direct" } := fun u => classifyOffer_direct _ rfl
  show (dedupOfferEvents (sortOfferEvents
      (List.filterMap classifyOffer
        [ mkStageChange p sf (some OFFERS_MADE_STAGE) (some t1)
        , mkStageChange p sf (some OFFERS_MADE_STAGE) (some t2) ]))).length = _
  rw [show List.filterMap classifyOffer
        [ mkStageChange p sf (some OFFERS_MADE_STAGE) (some t1)
        , mkStageChange p sf (some OFFERS_MADE_STAGE) (some t2) ]
      = [ { person_id := p, first_name := none, last_name := none, stage_from := sf
          , stage_to := some OFFERS_MADE_STAGE, changed_at := some t1
          , offer_type := "direct" }
        , { person_id := p, first_name := none, last_name := none, stage_from := sf
          , stage_to := some OFFERS_MADE_STAGE, changed_at := some t2
          , offer_type := "direct" } ] from by simp [hclass]]
  have key : ∀ o1 o2 : OfferEvent, o2.person_id = o1.person_id →
      o1.changed_at = some t1 → o2.changed_at = some t2 →
      cmpOfferEvents o1 o2 ≤ 0 →
      (dedupOfferEvents (sortOfferEvents [o1, o2])).length
        = if 86400000 ≤ t2 - t1 then 2 else 1 := by
    intro o1 o2 hp h1 h2 hc
    rw [sortOfferEvents_pair _ _ hc, dedupOfferEvents_pair _ _ hp, h1, h2]
    by_cases h : 86400000 ≤ t2 - t1
    · rw [if_pos (by simp [keepAfter24h, h]), if_pos h]; rfl
    · rw [if_neg (by simp [keepAfter24h, h]), if_neg h]; rfl
  exact key _ _ rfl rfl rfl (by simp [cmpOfferEvents, changedAtDiff]; omega)

/-- C5: the 24-hour deduplication boundary is inclusive of exactly 24 hours:
for any lead with two direct offers exactly 24h0m0s apart both are kept
(count 2), and two direct offers 23h59m59s apart keep only the first
(count 1). -/
theorem countOfferEvents_24h_boundary_inclusive :
    ∀ (p : String) (sf : Option String) (t : Int),
      (countOfferEvents
        [ mkStageChange p sf (some OFFERS_MADE_STAGE) (some t)
        , mkStageChange p sf (some OFFERS_MADE_STAGE) (some (t + 86400000)) ]
        none none).count = 2
      ∧ (countOfferEvents
        [ mkStageChange p sf (some OFFERS_MADE_STAGE) (some t)
        , mkStageChange p sf (some OFFERS_MADE_STAGE) (some (t + 86399000)) ]
        none none).count = 1 := by
  intro p sf t
  constructor
  · rw [countOfferEvents_two_direct p sf t (t + 86400000) (by omega), if_pos (by omega)]
  · rw [countOfferEvents_two_direct p sf t (t + 86399000) (by omega), if_neg (by omega)]

/-! ### Classifier characterization -/

/-- Membership form of the JavaScript `includes` on a nullable string. -/
theorem includesStr_eq_true_iff (l : List String) (o : Option String) :
    includesStr l o = true ↔ ∃ s, o = some s ∧ s ∈ l := by
  cases o <;> simp [includesStr]

/-- Rule 1 characterization: the classifier yields `direct` exactly on
transitions into the Offers-Made stage. -/
theorem classify_direct_iff (c : StageChange) :
    (classifyOffer c).map OfferEvent.offer_type = some "direct" ↔
      c.stage_to = some OFFERS_MADE_STAGE := by
  simp only [classifyOffer]
  split
  next h => simp_all
  next h =>
    split
    next h2 => simp_all [OFFERS_MADE_STAGE, OFFER_NOT_ACCEPTED_STAGE]
    next h2 =>
      split
      next h3 => simp_all [OFFERS_MADE_STAGE, CONTRACT_SENT_STAGE]
      next h3 => simp_all

/-- Rule 2 characterization: `implicit_not_accepted` exactly on transitions
into Offer-Not-Accepted out of a pre-offer stage. -/
theorem classify_implicitNA_iff (c : StageChange) :
    (classifyOffer c).map OfferEvent.offer_type = some "implicit_not_accepted" ↔
      (c.stage_to = some OFFER_NOT_ACCEPTED_STAGE ∧
        ∃ sf, c.stage_from = some sf ∧ sf ∈ PRE_OFFER_STAGES) := by
  have hinc := includesStr_eq_true_iff PRE_OFFER_STAGES c.stage_from
  simp only [classifyOffer]
  split
  next h => simp_all [OFFERS_MADE_STAGE, OFFER_NOT_ACCEPTED_STAGE]
  next h =>
    split
    next h2 => simp_all [← hinc]
    next h2 =>
      split
      next h3 => simp_all [← hinc, OFFER_NOT_ACCEPTED_STAGE, CONTRACT_SENT_STAGE]
      next h3 => simp_all [← hinc]

/-- Rule 3 characterization: `implicit_contract_sent` exactly on transitions
into Contract-Sent out of a pre-offer stage. -/
theorem classify_implicitCS_iff (c : StageChange) :
    (classifyOffer c).map OfferEvent.offer_type = some "implicit_contract_sent" ↔
      (c.stage_to = some CONTRACT_SENT_STAGE ∧
        ∃ sf, c.stage_from = some sf ∧ sf ∈ PRE_OFFER_STAGES) := by
  have hinc := includesStr_eq_true_iff PRE_OFFER_STAGES c.stage_from
  simp only [classifyOffer]
  split
  next h => simp_all [OFFERS_MADE_STAGE, CONTRACT_SENT_STAGE]
  next h =>
    split
    next h2 => simp_all [← hinc, OFFER_NOT_ACCEPTED_STAGE, CONTRACT_SENT_STAGE]
    next h2 =>
      split
      next h3 => simp_all [← hinc]
      next h3 => simp_all [← hinc]

/-- Exhaustiveness: the classifier yields nothing exactly when none of the
three rules applies. -/
theorem classify_none_iff (c : StageChange) :
    classifyOffer c = none ↔
      ¬(c.stage_to = some OFFERS_MADE_STAGE ∨
        (c.stage_to = some OFFER_NOT_ACCEPTED_STAGE ∧
          ∃ sf, c.stage_from = some sf ∧ sf ∈ PRE_OFFER_STAGES) ∨
        (c.stage_to = some CONTRACT_SENT_STAGE ∧
          ∃ sf, c.stage_from = some sf ∧ sf ∈ PRE_OFFER_STAGES)) := by
  have hinc := includesStr_eq_true_iff PRE_OFFER_STAGES c.stage_from
  simp only [classifyOffer]
  split
  next h => simp_all
  next h =>
    split
    next h2 => simp_all [← hinc]
    next h2 =>
      split
      next h3 => simp_all [← hinc]
      next h3 => simp_all [← hinc]

/-! ### Permutation and membership helpers -/

/-- Stable insertion only rearranges: the result is a permutation of the cons. -/
theorem insertSorted_perm (a : OfferEvent) (l : List OfferEvent) :
    (insertSorted a l).Perm (a :: l) := by
  induction l with
  | nil => simp [insertSorted]
  | cons b bs ih =>
    by_cases h : cmpOfferEvents a b ≤ 0
    · simp [insertSorted, h]
    · simp only [insertSorted, if_neg h]
      exact (ih.cons b).trans (List.Perm.swap a b bs)

/-- The embedded sort only rearranges its input. -/
theorem sortOfferEvents_perm (l : List OfferEvent) : (sortOfferEvents l).Perm l := by
  induction l with
  | nil => exact List.Perm.refl _
  | cons a rest ih => exact (insertSorted_perm a _).trans (ih.cons a)

/-- Every event in the dedup fold's output comes from the accumulator or from
the remaining input. -/
theorem mem_dedup_foldl (l : List OfferEvent) :
    ∀ (out : List OfferEvent) (m : LastOfferMap) (x : OfferEvent),
      x ∈ (l.foldl dedupStep (out, m)).1 → x ∈ out ∨ x ∈ l := by
  induction l with
  | nil =>
    intro out m x h
    exact Or.inl h
  | cons e rest ih =>
    intro out m x h
    rw [List.foldl_cons] at h
    have step_cases : (dedupStep (out, m) e).1 = out ++ [e] ∨ (dedupStep (out, m) e).1 = out := by
      unfold dedupStep
      rcases hm : m e.person_id with _ | lastTime
      · simp [hm]
      · by_cases hk : keepAfter24h e.changed_at lastTime = true
        · simp [hm, hk]
        · simp [hm, hk]
    rcases ih (dedupStep (out, m) e).1 (dedupStep (out, m) e).2 x (by simpa using h) with hx | hx
    · rcases step_cases with hs | hs
      · rw [hs] at hx
        rcases List.mem_append.mp hx with hx | hx
        · exact Or.inl hx
        · simp at hx
          simp [hx]
      · rw [hs] at hx
        exact Or.inl hx
    · simp [hx]

/-- Provenance: every event in the output of `countOfferEvents` is the
classification of some input record. -/
theorem mem_output_classified (xs : List StageChange) (s e : Option Int) (ev : OfferEvent) :
    ev ∈ (countOfferEvents xs s e).offerEvents →
      ∃ c, c ∈ xs ∧ classifyOffer c = some ev := by
  intro h
  have h0 : ev ∈ dedupOfferEvents
      (sortOfferEvents ((applyDateFilter xs s e).filterMap classifyOffer)) := h
  have h1 : ev ∈ sortOfferEvents ((applyDateFilter xs s e).filterMap classifyOffer) := by
    rcases mem_dedup_foldl _ [] (fun _ => none) ev h0 with hx | hx
    · simp at hx
    · exact hx
  have h2 : ev ∈ (applyDateFilter xs s e).filterMap classifyOffer :=
    (sortOfferEvents_perm _).mem_iff.mp h1
  rcases List.mem_filterMap.mp h2 with ⟨c, hc, hcl⟩
  refine ⟨c, ?_, hcl⟩
  cases s with
  | none => exact hc
  | some s0 =>
    cases e with
    | none => exact hc
    | some e0 => exact (List.mem_filter.mp hc).1

/-! ### Claims C1 and C8 -/

/-- C1: the classifier assigns `direct` iff the destination is Offers-Made;
otherwise `implicit_not_accepted` iff the destination is Offer-Not-Accepted
and the origin is a pre-offer stage; otherwise `implicit_contract_sent` iff
the destination is Contract-Sent and the origin is a pre-offer stage; every
other record is not an offer event, and only classified records can reach
the output.  The three rule conditions are pairwise exclusive (distinct
destination stages), so this characterization pins down the prioritized
if/else-if chain exactly. -/
theorem classifier_assigns_offer_types :
    ∀ c : StageChange,
      ((classifyOffer c).map OfferEvent.offer_type = some "direct" ↔
        c.stage_to = some OFFERS_MADE_STAGE)
      ∧ ((classifyOffer c).map OfferEvent.offer_type = some "implicit_not_accepted" ↔
          (c.stage_to = some OFFER_NOT_ACCEPTED_STAGE ∧
            ∃ sf, c.stage_from = some sf ∧ sf ∈ PRE_OFFER_STAGES))
      ∧ ((classifyOffer c).map OfferEvent.offer_type = some "implicit_contract_sent" ↔
          (c.stage_to = some CONTRACT_SENT_STAGE ∧
            ∃ sf, c.stage_from = some sf ∧ sf ∈ PRE_OFFER_STAGES))
      ∧ (classifyOffer c = none ↔
          ¬(c.stage_to = some OFFERS_MADE_STAGE ∨
            (c.stage_to = some OFFER_NOT_ACCEPTED_STAGE ∧
              ∃ sf, c.stage_from = some sf ∧ sf ∈ PRE_OFFER_STAGES) ∨
            (c.stage_to = some CONTRACT_SENT_STAGE ∧
              ∃ sf, c.stage_from = some sf ∧ sf ∈ PRE_OFFER_STAGES)))
      ∧ (∀ (xs : List StageChange) (s e : Option Int) (ev : OfferEvent),
          ev ∈ (countOfferEvents xs s e).offerEvents →
            ∃ c0, c0 ∈ xs ∧ classifyOffer c0 = some ev) :=
  fun c =>
    ⟨classify_direct_iff c, classify_implicitNA_iff c, classify_implicitCS_iff c,
     classify_none_iff c, fun xs s e ev h => mem_output_classified xs s e ev h⟩

/-- C8: a record whose `stage_from` is null can be a direct offer (rule 1)
but never an implicit one (null fails the pre-offer membership), and the
Scenario-D record (null origin, Offer-Not-Accepted destination) contributes
nothing to the count. -/
theorem stage_from_null_never_implicit :
    (∀ c : StageChange, c.stage_from = none →
      (classifyOffer c).map OfferEvent.offer_type ≠ some "implicit_not_accepted"
      ∧ (classifyOffer c).map OfferEvent.offer_type ≠ some "implicit_contract_sent"
      ∧ (c.stage_to = some OFFERS_MADE_STAGE →
          (classifyOffer c).map OfferEvent.offer_type = some "direct"))
    ∧ (countOfferEvents
        [mkStageChange "L" none (some OFFER_NOT_ACCEPTED_STAGE) (some 0)]
        none none).count = 0 := by
  constructor
  · intro c hsf
    refine ⟨?_, ?_, fun h => (classify_direct_iff c).mpr h⟩
    · simp [classify_implicitNA_iff c, hsf]
    · simp [classify_implicitCS_iff c, hsf]
  · decide

/-- Witness for C8 at concrete inputs: a null-origin transition into
Offers-Made is classified `direct`, and the Scenario-D record counts zero. -/
theorem stage_from_null_never_implicit_witness :
    (classifyOffer (mkStageChange "W" none (some OFFERS_MADE_STAGE) (some 0))).map
        OfferEvent.offer_type = some "direct"
    ∧ (classifyOffer (mkStageChange "W" none (some OFFER_NOT_ACCEPTED_STAGE) (some 0))).map
        OfferEvent.offer_type ≠ some "implicit_not_accepted" :=
  ⟨(stage_from_null_never_implicit.1
      (mkStageChange "W" none (some OFFERS_MADE_STAGE) (some 0)) rfl).2.2 rfl,
   (stage_from_null_never_implicit.1
      (mkStageChange "W" none (some OFFER_NOT_ACCEPTED_STAGE) (some 0)) rfl).1⟩

/-! ### The per-lead greedy walk described by the spec -/

/-- Spec comparison model (section 4.2 of the design document): walk one
lead's time-sorted events keeping the first one, then keeping a later event
exactly when the 24-hour test against the last KEPT event passes; a discarded
event never updates the anchor.  The anchor is `none` before anything is
kept, and `some t` afterwards, where `t` is the kept event's (possibly
invalid) parsed time. -/
def specDedupWalkFrom : Option (Option Int) → List OfferEvent → List OfferEvent
  | _, [] => []
  | none, e :: rest => e :: specDedupWalkFrom (some e.changed_at) rest
  | some last, e :: rest =>
      if keepAfter24h e.changed_at last then
        e :: specDedupWalkFrom (some e.changed_at) rest
      else specDedupWalkFrom (some last) rest

/-- Spec comparison model: the walk started with no kept event. -/
def specDedupWalk (l : List OfferEvent) : List OfferEvent :=
  specDedupWalkFrom none l

/-- Two kept events in sequence are at least 24 hours (86400000 ms) apart,
with both timestamps necessarily valid. -/
def gap24 (e1 e2 : OfferEvent) : Prop :=
  ∃ t1 t2, e1.changed_at = some t1 ∧ e2.changed_at = some t2 ∧ t1 + 86400000 ≤ t2

/-- A successful 24-hour test yields the gap relation. -/
theorem gap24_of_keep (x y : OfferEvent)
    (h : keepAfter24h y.changed_at x.changed_at = true) : gap24 x y := by
  rcases hx : x.changed_at with _ | a <;> rcases hy : y.changed_at with _ | b <;>
    rw [hx, hy] at h <;> simp [keepAfter24h] at h
  exact ⟨a, b, hx, hy, by omega⟩

/-- Projection of the dedup fold onto one lead: starting from accumulator
`out` and anchor map `m`, the fiber of the output over `person_id = p` is the
fiber of `out` followed by the spec walk, from anchor `m p`, over the fiber
of the input. -/
theorem dedup_foldl_filter (l : List OfferEvent) :
    ∀ (out : List OfferEvent) (m : LastOfferMap) (p : String),
      ((l.foldl dedupStep (out, m)).1.filter (fun e => e.person_id == p))
        = out.filter (fun e => e.person_id == p)
          ++ specDedupWalkFrom (m p) (l.filter (fun e => e.person_id == p)) := by
  induction l with
  | nil => intro out m p; simp [specDedupWalkFrom]
  | cons e rest ih =>
    intro out m p
    rw [List.foldl_cons]
    by_cases hp : e.person_id = p
    · rcases hm : m e.person_id with _ | last
      · have hstep : dedupStep (out, m) e =
            (out ++ [e], fun q => if q = e.person_id then some e.changed_at else m q) := by
          simp [dedupStep, hm]
        rw [hstep, ih]
        have hmp : m p = none := hp ▸ hm
        simp [List.filter_append, List.filter_cons, hp, hmp, specDedupWalkFrom]
      · by_cases hk : keepAfter24h e.changed_at last = true
        · have hstep : dedupStep (out, m) e =
              (out ++ [e], fun q => if q = e.person_id then some e.changed_at else m q) := by
            simp [dedupStep, hm, hk]
          rw [hstep, ih]
          have hmp : m p = some last := hp ▸ hm
          simp [List.filter_append, List.filter_cons, hp, hmp, specDedupWalkFrom, hk]
        · have hstep : dedupStep (out, m) e = (out, m) := by
            simp [dedupStep, hm, hk]
          rw [hstep, ih]
          have hmp : m p = some last := hp ▸ hm
          simp [List.filter_cons, hp, hmp, specDedupWalkFrom, hk]
    · have hfiber : (e.person_id == p) = false := by simp [hp]
      have hmp : ((fun q => if q = e.person_id then some e.changed_at else m q) p) = m p := by
        show (if p = e.person_id then some e.changed_at else m p) = m p
        rw [if_neg (fun h => hp h.symm)]
      rcases hm : m e.person_id with _ | last
      · have hstep : dedupStep (out, m) e =
            (out ++ [e], fun q => if q = e.person_id then some e.changed_at else m q) := by
          simp [dedupStep, hm]
        rw [hstep, ih]
        simp [List.filter_append, List.filter_cons, hfiber, hmp]
      · by_cases hk : keepAfter24h e.changed_at last = true
        · have hstep : dedupStep (out, m) e =
              (out ++ [e], fun q => if q = e.person_id then some e.changed_at else m q) := by
            simp [dedupStep, hm, hk]
          rw [hstep, ih]
          simp [List.filter_append, List.filter_cons, hfiber, hmp]
        · have hstep : dedupStep (out, m) e = (out, m) := by
            simp [dedupStep, hm, hk]
          rw [hstep, ih]
          simp [List.filter_cons, hfiber]

/-- Invariant of the spec walk: consecutive kept events satisfy `gap24`, and
when the walk starts from a kept anchor its first kept event passes the
24-hour test against that anchor. -/
theorem specWalkFrom_chain (l : List OfferEvent) :
    ∀ a : Option (Option Int),
      ((specDedupWalkFrom a l).Chain' gap24)
      ∧ (∀ (e0 : OfferEvent) (t0 : Option Int),
          (specDedupWalkFrom a l).head? = some e0 → a = some t0 →
            keepAfter24h e0.changed_at t0 = true) := by
  induction l with
  | nil =>
    intro a
    refine ⟨by simp [specDedupWalkFrom], ?_⟩
    intro e0 t0 h0 _
    simp [specDedupWalkFrom] at h0
  | cons e rest ih =>
    intro a
    cases a with
    | none =>
      rw [show specDedupWalkFrom none (e :: rest)
            = e :: specDedupWalkFrom (some e.changed_at) rest from rfl]
      refine ⟨List.chain'_cons'.mpr ⟨?_, (ih (some e.changed_at)).1⟩, ?_⟩
      · intro y hy
        exact gap24_of_keep e y
          ((ih (some e.changed_at)).2 y e.changed_at (Option.mem_def.mp hy) rfl)
      · intro e0 t0 h0 ha
        exact absurd ha (by simp)
    | some last =>
      by_cases hk : keepAfter24h e.changed_at last = true
      · rw [show specDedupWalkFrom (some last) (e :: rest)
              = if keepAfter24h e.changed_at last
                then e :: specDedupWalkFrom (some e.changed_at) rest
                else specDedupWalkFrom (some last) rest from rfl, if_pos hk]
        refine ⟨List.chain'_cons'.mpr ⟨?_, (ih (some e.changed_at)).1⟩, ?_⟩
        · intro y hy
          exact gap24_of_keep e y
            ((ih (some e.changed_at)).2 y e.changed_at (Option.mem_def.mp hy) rfl)
        · intro e0 t0 h0 ha
          rw [List.head?_cons, Option.some.injEq] at h0
          cases h0
          cases ha
          exact hk
      · rw [show specDedupWalkFrom (some last) (e :: rest)
              = if keepAfter24h e.changed_at last
                then e :: specDedupWalkFrom (some e.changed_at) rest
                else specDedupWalkFrom (some last) rest from rfl, if_neg hk]
        refine ⟨(ih (some last)).1, ?_⟩
        intro e0 t0 h0 ha
        cases ha
        exact (ih (some last)).2 e0 last h0 rfl

/-- Per-lead output fiber as a single walk: for every call, the kept events of
lead `p` are the spec walk over the fiber of the sorted classified events. -/
theorem countOfferEvents_filter_eq_walk (xs : List StageChange) (s e : Option Int)
    (p : String) :
    (countOfferEvents xs s e).offerEvents.filter (fun ev => ev.person_id == p)
      = specDedupWalk
          ((sortOfferEvents ((applyDateFilter xs s e).filterMap classifyOffer)).filter
            (fun ev => ev.person_id == p)) := by
  have h := dedup_foldl_filter
    (sortOfferEvents ((applyDateFilter xs s e).filterMap classifyOffer))
    [] (fun _ => none) p
  simpa [specDedupWalk] using h

/-- P5 fixture: one lead with direct offers at t = 0h, 20h and 40h. -/
def p5Input : List StageChange :=
  [ mkStageChange "L" needsOffer (some OFFERS_MADE_STAGE) (some 0)
  , mkStageChange "L" needsOffer (some OFFERS_MADE_STAGE) (some 72000000)
  , mkStageChange "L" needsOffer (some OFFERS_MADE_STAGE) (some 144000000) ]

/-! ### Claims C2 and C3 -/

/-- C2: the deduplicator anchors on the last KEPT event: for every call and
every lead, the kept events of that lead are exactly the spec's greedy walk
(keep the first event, then keep an event iff it passes the 24-hour test
against the most recently kept event; discarded events never update the
anchor) over that lead's slice of the internally sorted offer events.  In
particular the P5 input (events at 0h, 20h, 40h) keeps exactly the 0h and
40h events, count 2 — not the anchor-on-previous-raw-event outcome. -/
theorem dedup_anchors_on_last_kept :
    (∀ (xs : List StageChange) (s e : Option Int) (p : String),
      (countOfferEvents xs s e).offerEvents.filter (fun ev => ev.person_id == p)
        = specDedupWalk
            ((sortOfferEvents ((applyDateFilter xs s e).filterMap classifyOffer)).filter
              (fun ev => ev.person_id == p)))
    ∧ (countOfferEvents p5Input none none).count = 2
    ∧ (countOfferEvents p5Input none none).offerEvents.map OfferEvent.changed_at
        = [some 0, some 144000000] := by
  refine ⟨countOfferEvents_filter_eq_walk, ?_, ?_⟩ <;> decide

/-- C3: invariant of every `countOfferEvents` call — for every lead, each
consecutive pair of that lead's kept events has valid timestamps at least
24 hours apart. -/
theorem kept_events_chain_24h :
    ∀ (xs : List StageChange) (s e : Option Int) (p : String),
      ((countOfferEvents xs s e).offerEvents.filter
        (fun ev => ev.person_id == p)).Chain' gap24 := by
  intro xs s e p
  rw [countOfferEvents_filter_eq_walk xs s e p]
  exact (specWalkFrom_chain _ none).1

/-! ### Claim C7 -/

/-- Fixture: a record with an offer-trigger destination but an unparseable
`changed_at` (Invalid Date). -/
def badRec : StageChange := mkStageChange "L" needsOffer (some OFFERS_MADE_STAGE) none

/-- Fixture: a well-formed direct-offer record for the same lead. -/
def goodRec : StageChange := mkStageChange "L" needsOffer (some OFFERS_MADE_STAGE) (some 0)

/-- Counterexample to C7: in the unbounded call, a record with unparseable
`changed_at` but `stage_to = 'ACQ - Offers Made'` IS classified, survives
deduplication (so it appears in the output), and its invalid anchor suppresses
the same lead's later well-formed offer: alone, `goodRec` counts 1, but
together with `badRec` the kept event is the malformed one and the count stays
1 with `goodRec` discarded. -/
theorem malformed_record_counterexample :
    (countOfferEvents [badRec] none none).offerEvents
      = [ { person_id := "L", first_name := none, last_name := none
          , stage_from := needsOffer, stage_to := some OFFERS_MADE_STAGE
          , changed_at := none, offer_type := "direct" } ]
    ∧ (countOfferEvents [goodRec] none none).count = 1
    ∧ (countOfferEvents [badRec, goodRec] none none).count = 1
    ∧ (countOfferEvents [badRec, goodRec] none none).offerEvents.map
        OfferEvent.changed_at = [none] := by
  refine ⟨by decide, by decide, by decide, by decide⟩

/-- C7 as amended: a record missing `stage_to` is never classified and so is
skipped, and a record with unparseable `changed_at` is excluded whenever a
date window is supplied; the computation always completes.  However, in the
unbounded call a record with unparseable `changed_at` and an offer-trigger
`stage_to` is classified and kept, and it suppresses later same-lead offers. -/
theorem malformed_record_handling :
    (∀ c : StageChange, c.stage_to = none → classifyOffer c = none)
    ∧ (∀ (c : StageChange) (s e : Int), c.changed_at = none → windowPred s e c = false)
    ∧ (countOfferEvents [badRec] none none).offerEvents.map OfferEvent.changed_at = [none]
    ∧ (countOfferEvents [badRec, goodRec] none none).count = 1 := by
  refine ⟨?_, ?_, by decide, by decide⟩
  · intro c h
    simp [classifyOffer, h]
  · intro c s e h
    simp [windowPred, dateGe, h]

/-- Witness for the amended C7 at concrete inputs. -/
theorem malformed_record_handling_witness :
    classifyOffer (mkStageChange "W" needsOffer none (some 0)) = none
    ∧ windowPred 0 10 (mkStageChange "W" needsOffer (some OFFERS_MADE_STAGE) none) = false :=
  ⟨malformed_record_handling.1 _ rfl,
   malformed_record_handling.2.1 _ 0 10 rfl⟩

/-! ### Order-theoretic facts about the comparator, and time images of the
walk, used to settle input-order independence -/

/-- Timestamps image of the spec walk: the walk's keep/skip decisions depend
only on the sequence of parsed times. -/
def walkTimes : Option (Option Int) → List (Option Int) → List (Option Int)
  | _, [] => []
  | none, t :: rest => t :: walkTimes (some t) rest
  | some last, t :: rest =>
      if keepAfter24h t last then t :: walkTimes (some t) rest
      else walkTimes (some last) rest

/-- The walk commutes with taking timestamps. -/
theorem specWalkFrom_map_times (l : List OfferEvent) :
    ∀ a, (specDedupWalkFrom a l).map OfferEvent.changed_at
      = walkTimes a (l.map OfferEvent.changed_at) := by
  induction l with
  | nil => intro a; simp [specDedupWalkFrom, walkTimes]
  | cons ev rest ih =>
    intro a
    cases a with
    | none => simp [specDedupWalkFrom, walkTimes, ih]
    | some last =>
      by_cases hk : keepAfter24h ev.changed_at last = true
      · simp [specDedupWalkFrom, walkTimes, hk, ih]
      · simp [specDedupWalkFrom, walkTimes, hk, ih]

/-- Classification copies the record's `changed_at` unchanged. -/
theorem classifyOffer_changed_at {c : StageChange} {ev : OfferEvent}
    (h : classifyOffer c = some ev) : ev.changed_at = c.changed_at := by
  simp only [classifyOffer] at h
  split at h
  · cases h; rfl
  · split at h
    · cases h; rfl
    · split at h
      · cases h; rfl
      · cases h

/-- The comparator's non-strict order. -/
def leKey (a b : OfferEvent) : Prop := cmpOfferEvents a b ≤ 0

/-- Parsed time of an event (0 for an invalid date; only used where validity
is known). -/
def timeVal (e : OfferEvent) : Int := e.changed_at.getD 0

/-- On events with parseable timestamps, the comparator order is the
lexicographic order on (person, time). -/
theorem leKey_iff_of_parsed {a b : OfferEvent}
    (ha : a.changed_at.isSome) (hb : b.changed_at.isSome) :
    leKey a b ↔
      (a.person_id < b.person_id ∨
        (a.person_id = b.person_id ∧ timeVal a ≤ timeVal b)) := by
  obtain ⟨ta, hta⟩ := Option.isSome_iff_exists.mp ha
  obtain ⟨tb, htb⟩ := Option.isSome_iff_exists.mp hb
  by_cases hp : a.person_id = b.person_id
  · rw [leKey, cmpOfferEvents, if_neg (by simp [hp]), hta, htb]
    simp [changedAtDiff, timeVal, hta, htb, hp]
  · rw [leKey, cmpOfferEvents, if_pos hp, personCompareInt]
    rcases lt_trichotomy a.person_id b.person_id with h | h | h
    · rw [if_pos h]
      simp [h]
    · exact absurd h hp
    · rw [if_neg (not_lt_of_gt h), if_pos h]
      simp [not_lt_of_gt h, hp]

/-- Transitivity of the comparator order on parsed events. -/
theorem leKey_trans_of_parsed {a b c : OfferEvent}
    (ha : a.changed_at.isSome) (hb : b.changed_at.isSome) (hc : c.changed_at.isSome)
    (h1 : leKey a b) (h2 : leKey b c) : leKey a c := by
  rw [leKey_iff_of_parsed ha hb] at h1
  rw [leKey_iff_of_parsed hb hc] at h2
  rw [leKey_iff_of_parsed ha hc]
  rcases h1 with h1 | ⟨h1e, h1t⟩
  · rcases h2 with h2 | ⟨h2e, h2t⟩
    · exact Or.inl (lt_trans h1 h2)
    · exact Or.inl (h2e ▸ h1)
  · rcases h2 with h2 | ⟨h2e, h2t⟩
    · exact Or.inl (h1e ▸ h2)
    · exact Or.inr ⟨h1e.trans h2e, le_trans h1t h2t⟩

/-- Totality of the comparator order on parsed events. -/
theorem leKey_total_of_parsed {a b : OfferEvent}
    (ha : a.changed_at.isSome) (hb : b.changed_at.isSome) :
    leKey a b ∨ leKey b a := by
  rw [leKey_iff_of_parsed ha hb, leKey_iff_of_parsed hb ha]
  rcases lt_trichotomy a.person_id b.person_id with h | h | h
  · exact Or.inl (Or.inl h)
  · rcases le_total (timeVal a) (timeVal b) with ht | ht
    · exact Or.inl (Or.inr ⟨h, ht⟩)
    · exact Or.inr (Or.inr ⟨h.symm, ht⟩)
  · exact Or.inr (Or.inl h)

/-- Inserting into a comparator-sorted list of parsed events keeps it sorted. -/
theorem pairwise_insertSorted (a : OfferEvent) (l : List OfferEvent)
    (ha : a.changed_at.isSome) (hl : ∀ e ∈ l, e.changed_at.isSome)
    (hp : l.Pairwise leKey) : (insertSorted a l).Pairwise leKey := by
  induction l with
  | nil => simp [insertSorted]
  | cons b bs ih =>
    have hb : b.changed_at.isSome := hl b (by simp)
    have hbs : ∀ e ∈ bs, e.changed_at.isSome := fun e he => hl e (by simp [he])
    rcases List.pairwise_cons.mp hp with ⟨hbAll, hpbs⟩
    by_cases h : cmpOfferEvents a b ≤ 0
    · rw [insertSorted, if_pos h]
      refine List.pairwise_cons.mpr ⟨?_, hp⟩
      intro x hx
      rcases List.mem_cons.mp hx with rfl | hx
      · exact h
      · exact leKey_trans_of_parsed ha hb (hbs x hx) h (hbAll x hx)
    · rw [insertSorted, if_neg h]
      refine List.pairwise_cons.mpr ⟨?_, ih hbs hpbs⟩
      intro x hx
      rcases List.mem_cons.mp ((insertSorted_perm a bs).mem_iff.mp hx) with rfl | hx
      · rcases leKey_total_of_parsed ha hb with hab | hba
        · exact absurd hab h
        · exact hba
      · exact hbAll x hx

/-- The embedded sort produces a comparator-sorted list whenever all
timestamps are parseable. -/
theorem pairwise_sortOfferEvents (l : List OfferEvent)
    (hl : ∀ e ∈ l, e.changed_at.isSome) : (sortOfferEvents l).Pairwise leKey := by
  induction l with
  | nil => simp [sortOfferEvents]
  | cons a rest ih =>
    have hrest : ∀ e ∈ rest, e.changed_at.isSome := fun e he => hl e (by simp [he])
    have hsorted : ∀ e ∈ sortOfferEvents rest, e.changed_at.isSome :=
      fun e he => hrest e ((sortOfferEvents_perm rest).mem_iff.mp he)
    exact pairwise_insertSorted a (sortOfferEvents rest)
      (hl a (by simp)) hsorted (ih hrest)

/-- For permuted inputs with parseable timestamps, each lead's slice of the
sorted offer events carries the same sequence of timestamps. -/
theorem fiber_times_eq (l1 l2 : List OfferEvent) (hperm : l1.Perm l2)
    (hpar : ∀ ev ∈ l1, ev.changed_at.isSome) (p : String) :
    ((sortOfferEvents l1).filter (fun ev => ev.person_id == p)).map OfferEvent.changed_at
      = ((sortOfferEvents l2).filter (fun ev => ev.person_id == p)).map
          OfferEvent.changed_at := by
  have hpar2 : ∀ ev ∈ l2, ev.changed_at.isSome :=
    fun ev he => hpar ev (hperm.mem_iff.mpr he)
  have hparf1 : ∀ ev ∈ (sortOfferEvents l1).filter (fun ev => ev.person_id == p),
      ev.changed_at.isSome :=
    fun ev he => hpar ev ((sortOfferEvents_perm l1).mem_iff.mp (List.mem_of_mem_filter he))
  have hparf2 : ∀ ev ∈ (sortOfferEvents l2).filter (fun ev => ev.person_id == p),
      ev.changed_at.isSome :=
    fun ev he => hpar2 ev ((sortOfferEvents_perm l2).mem_iff.mp (List.mem_of_mem_filter he))
  have hpermf : ((sortOfferEvents l1).filter (fun ev => ev.person_id == p)).Perm
      ((sortOfferEvents l2).filter (fun ev => ev.person_id == p)) :=
    ((sortOfferEvents_perm l1).trans (hperm.trans (sortOfferEvents_perm l2).symm)).filter _
  have hsorted : ∀ (l : List OfferEvent), (∀ ev ∈ l, ev.changed_at.isSome) →
      ∀ g : List OfferEvent,
        g = sortOfferEvents l →
      ((g.filter (fun ev => ev.person_id == p)).map timeVal).Sorted (· ≤ ·) := by
    intro l hparl g hg
    have hpw : (g.filter (fun ev => ev.person_id == p)).Pairwise leKey := by
      rw [hg]
      exact (pairwise_sortOfferEvents l hparl).filter _
    rw [List.Sorted, List.pairwise_map]
    refine hpw.imp_of_mem ?_
    intro a b hamem hbmem hab
    have hap : a.person_id = p := by
      have := (List.mem_filter.mp hamem).2
      simpa using this
    have hbp : b.person_id = p := by
      have := (List.mem_filter.mp hbmem).2
      simpa using this
    have haS : a.changed_at.isSome := by
      rw [hg] at hamem
      exact hparl a ((sortOfferEvents_perm l).mem_iff.mp (List.mem_of_mem_filter hamem))
    have hbS : b.changed_at.isSome := by
      rw [hg] at hbmem
      exact hparl b ((sortOfferEvents_perm l).mem_iff.mp (List.mem_of_mem_filter hbmem))
    rcases (leKey_iff_of_parsed haS hbS).mp hab with h | ⟨_, h⟩
    · rw [hap, hbp] at h
      exact absurd h (lt_irrefl p)
    · exact h
  have heqInt : ((sortOfferEvents l1).filter (fun ev => ev.person_id == p)).map timeVal
      = ((sortOfferEvents l2).filter (fun ev => ev.person_id == p)).map timeVal :=
    List.eq_of_perm_of_sorted (hpermf.map timeVal)
      (hsorted l1 hpar _ rfl) (hsorted l2 hpar2 _ rfl)
  have lift : ∀ g : List OfferEvent, (∀ ev ∈ g, ev.changed_at.isSome) →
      g.map OfferEvent.changed_at = (g.map timeVal).map some := by
    intro g
    induction g with
    | nil => intro _; rfl
    | cons x gs ihg =>
      intro hg
      have hx : x.changed_at.isSome := hg x (by simp)
      have hxeq : x.changed_at = some (timeVal x) := by
        rcases Option.isSome_iff_exists.mp hx with ⟨t, ht⟩
        simp [timeVal, ht]
      simp only [List.map_cons, hxeq]
      rw [ihg (fun e he => hg e (by simp [he]))]
  rw [lift _ hparf1, lift _ hparf2, heqInt]

/-- With no bounds the date filter is the identity. -/
theorem applyDateFilter_none (xs : List StageChange) :
    applyDateFilter xs none none = xs := rfl

/-- Core permutation invariance (unbounded call) on inputs with parseable
timestamps: the count and every lead's kept-timestamp sequence are unchanged
under input permutation. -/
theorem perm_core (xs ys : List StageChange) (hperm : xs.Perm ys)
    (hpar : ∀ c ∈ xs, c.changed_at.isSome) :
    (countOfferEvents xs none none).count = (countOfferEvents ys none none).count
    ∧ ∀ p : String,
        ((countOfferEvents xs none none).offerEvents.filter
          (fun ev => ev.person_id == p)).map OfferEvent.changed_at
        = ((countOfferEvents ys none none).offerEvents.filter
          (fun ev => ev.person_id == p)).map OfferEvent.changed_at := by
  have hpermo : (xs.filterMap classifyOffer).Perm (ys.filterMap classifyOffer) :=
    hperm.filterMap _
  have hparo : ∀ ev ∈ xs.filterMap classifyOffer, ev.changed_at.isSome := by
    intro ev he
    rcases List.mem_filterMap.mp he with ⟨c, hc, hcl⟩
    rw [classifyOffer_changed_at hcl]
    exact hpar c hc
  have fibers : ∀ p : String,
      ((countOfferEvents xs none none).offerEvents.filter
        (fun ev => ev.person_id == p)).map OfferEvent.changed_at
      = ((countOfferEvents ys none none).offerEvents.filter
        (fun ev => ev.person_id == p)).map OfferEvent.changed_at := by
    intro p
    rw [countOfferEvents_filter_eq_walk xs none none p,
      countOfferEvents_filter_eq_walk ys none none p,
      specDedupWalk, specDedupWalk, specWalkFrom_map_times, specWalkFrom_map_times,
      applyDateFilter_none xs, applyDateFilter_none ys,
      fiber_times_eq _ _ hpermo hparo p]
  refine ⟨?_, fibers⟩
  have hlen : ∀ p : String,
      ((countOfferEvents xs none none).offerEvents.filter
        (fun ev => ev.person_id == p)).length
      = ((countOfferEvents ys none none).offerEvents.filter
        (fun ev => ev.person_id == p)).length := by
    intro p
    have h := congrArg List.length (fibers p)
    simpa using h
  have hpermMap : ((countOfferEvents xs none none).offerEvents.map
      OfferEvent.person_id).Perm
      ((countOfferEvents ys none none).offerEvents.map OfferEvent.person_id) := by
    rw [List.perm_iff_count]
    intro p
    rw [List.count_eq_countP, List.count_eq_countP, List.countP_map, List.countP_map,
      List.countP_eq_length_filter, List.countP_eq_length_filter]
    exact hlen p
  have hl := hpermMap.length_eq
  rw [List.length_map, List.length_map] at hl
  exact hl

/-! ### Claim C6 -/

/-- Fixture: an implicit offer for the same lead at the same instant as
`goodRec`. -/
def tieImplicitRec : StageChange :=
  mkStageChange "L" needsOffer (some OFFER_NOT_ACCEPTED_STAGE) (some 0)

/-- Fixture: a direct offer for the same lead exactly 24 hours later. -/
def lateRec : StageChange := mkStageChange "L" needsOffer (some OFFERS_MADE_STAGE) (some 86400000)

/-- Counterexample to C6.  First part: two distinct same-lead offer events at
the identical timestamp — swapping the input order changes WHICH event is
kept (the stable sort preserves input order on ties and the walk keeps the
first), so the set of kept events is not permutation-invariant.  Second part:
with an unparseable timestamp in the input even the COUNT changes under
permutation (the invalid anchor is kept first in one order and discards the
rest of the lead's events). -/
theorem input_order_counterexample :
    ([goodRec, tieImplicitRec] : List StageChange).Perm [tieImplicitRec, goodRec]
    ∧ (countOfferEvents [goodRec, tieImplicitRec] none none).offerEvents.map
        OfferEvent.offer_type = ["direct"]
    ∧ (countOfferEvents [tieImplicitRec, goodRec] none none).offerEvents.map
        OfferEvent.offer_type = ["implicit_not_accepted"]
    ∧ ([badRec, goodRec, lateRec] : List StageChange).Perm [goodRec, badRec, lateRec]
    ∧ (countOfferEvents [badRec, goodRec, lateRec] none none).count = 1
    ∧ (countOfferEvents [goodRec, badRec, lateRec] none none).count = 2 := by
  refine ⟨by decide, by decide, by decide, by decide, by decide, by decide⟩

/-- C6 as amended: for inputs whose records all have parseable timestamps,
permuting the input preserves the count and, for every lead, the exact
sequence of kept timestamps — but not necessarily the identity of the kept
events when distinct same-lead events share a timestamp, and with unparseable
timestamps even the count can change.  Holds for every combination of
bounds. -/
theorem countOfferEvents_perm_invariant :
    ∀ (xs ys : List StageChange) (s e : Option Int),
      xs.Perm ys → (∀ c ∈ xs, c.changed_at.isSome) →
      (countOfferEvents xs s e).count = (countOfferEvents ys s e).count
      ∧ ∀ p : String,
          ((countOfferEvents xs s e).offerEvents.filter
            (fun ev => ev.person_id == p)).map OfferEvent.changed_at
          = ((countOfferEvents ys s e).offerEvents.filter
            (fun ev => ev.person_id == p)).map OfferEvent.changed_at := by
  intro xs ys s e hperm hpar
  match s, e with
  | some s0, some e0 =>
    exact perm_core (xs.filter (windowPred s0 e0)) (ys.filter (windowPred s0 e0))
      (hperm.filter _) (fun c hc => hpar c (List.mem_of_mem_filter hc))
  | some s0, none => exact perm_core xs ys hperm hpar
  | none, some e0 => exact perm_core xs ys hperm hpar
  | none, none => exact perm_core xs ys hperm hpar

/-- Witness for the amended C6: a concrete permutation with parseable
timestamps preserves the count. -/
theorem countOfferEvents_perm_invariant_witness :
    (countOfferEvents [goodRec, tieImplicitRec] none none).count
      = (countOfferEvents [tieImplicitRec, goodRec] none none).count :=
  (countOfferEvents_perm_invariant [goodRec, tieImplicitRec] [tieImplicitRec, goodRec]
    none none (by decide) (by decide)).1
